import Mathlib

/-!
Verification development for the form-filling program
(fill_form_from_excel_by_col.py and streamlit_app.py).

The Python sources are shallowly embedded below.  Cells of a spreadsheet
row are modelled as optional strings (absence is the missing cell).  The
single external call, dateutil.parser.parse, is not part of the
repository; it is taken as an explicit oracle parameter of the date
parser, so theorems quantified over the oracle hold for the real program
whatever that library does.
-/

/-! ## Python string primitives (ASCII fragment) -/

/-- Whitespace characters stripped by Python str.strip / split (ASCII part). -/
def pyWs (c : Char) : Bool :=
  c = ' ' || c = '\t' || c = '\n' || c = '\r' || c = '\x0b' || c = '\x0c'

/-- Drop leading and trailing whitespace from a character list. -/
def stripList (l : List Char) : List Char :=
  ((l.dropWhile pyWs).reverse.dropWhile pyWs).reverse

/-- Python str.strip(). -/
def pyStrip (s : String) : String := String.mk (stripList s.data)

/-- Python str.upper() (ASCII). -/
def pyUpper (s : String) : String := String.mk (s.data.map Char.toUpper)

/-- Python str.lower() (ASCII). -/
def pyLower (s : String) : String := String.mk (s.data.map Char.toLower)

/-- Python str.startswith. -/
def pyStarts (s p : String) : Bool := p.data.isPrefixOf s.data

/-- Substring occurrence on character lists. -/
def hasSubstr : List Char → List Char → Bool
  | [], needle => needle.isEmpty
  | c :: t, needle => needle.isPrefixOf (c :: t) || hasSubstr t needle

/-- Python membership test: needle in hay. -/
def pyContains (hay needle : String) : Bool := hasSubstr hay.data needle.data

/-- Maximal runs of non-whitespace characters; run is the (reversed) run
being accumulated.  Models the splitting done by Python str.split(). -/
def splitWsGo : List Char → List Char → List (List Char)
  | [], run => if run.isEmpty then [] else [run.reverse]
  | c :: cs, run =>
    if pyWs c then
      if run.isEmpty then splitWsGo cs [] else run.reverse :: splitWsGo cs []
    else splitWsGo cs (c :: run)

/-- Python str.split() with no argument. -/
def pySplitPlain (s : String) : List String :=
  (splitWsGo s.data []).map (fun l => String.mk l)

/-- Python re.split of one-or-more-whitespace applied to a stripped string,
as in the CLI name splitting.  On an empty stripped string re.split returns
a singleton empty string. -/
def reSplitWsOfStripped (s : String) : List String :=
  let t := pyStrip s
  if t = "" then [""] else (splitWsGo t.data []).map (fun l => String.mk l)

/-- Decimal digits of a natural number, most significant first. -/
def natDigits (n : Nat) : List Char :=
  if n < 10 then [Char.ofNat (48 + n)]
  else natDigits (n / 10) ++ [Char.ofNat (48 + n % 10)]
  decreasing_by exact Nat.div_lt_self (by omega) (by omega)

/-- Decimal string of a natural number, as Python str(). -/
def natToDec (n : Nat) : String := String.mk (natDigits n)

/-- Python format specifier 02d: zero-pad a natural to at least two digits. -/
def pad2 (n : Nat) : String :=
  String.mk (if n < 10 then '0' :: natDigits n else natDigits n)

/-- Python str.zfill(2): left-pad with zeros to width two, never truncating. -/
def zfill2 (s : String) : String :=
  String.mk (List.replicate (2 - s.data.length) '0' ++ s.data)

/-- Numeric value of a list of decimal digit characters, as Python int(). -/
def decValue (l : List Char) : Nat :=
  l.foldl (fun a c => a * 10 + (c.toNat - 48)) 0

/-! ## Column locator: col_letter_to_index -/

/-- Loop body of col_letter_to_index: accumulate the base-26 value, or fail
on a character outside A-Z. -/
def colIdxAux : List Char → Int → Option Int
  | [], acc => some acc
  | c :: cs, acc =>
    if 'A' ≤ c ∧ c ≤ 'Z' then colIdxAux cs (acc * 26 + ((c.toNat : Int) - 65 + 1))
    else none

/-- Embedding of col_letter_to_index: strip and upper-case the input,
fold the base-26 value, subtract one; a character outside A-Z raises. -/
def col_letter_to_index (letter : String) : Except String Int :=
  let l := pyUpper (pyStrip letter)
  match colIdxAux l.data 0 with
  | some idx => Except.ok (idx - 1)
  | none => Except.error ("Invalid column letter: " ++ l)

/-! ## Row access -/

/-- A spreadsheet row: positional cells, each possibly missing. -/
abbrev Row := List (Option String)

/-- Python tuple indexing: negative indices wrap from the end; a still
out-of-range index raises (modelled as none). -/
def pyTupleGet (row : Row) (i : Int) : Option (Option String) :=
  let j : Int := if i < 0 then (row.length : Int) + i else i
  if 0 ≤ j then row[j.toNat]? else none

/-- Embedding of the local cell(letter) helper of main: convert the letter,
return the cell when the index passes the bound check, and turn any raised
error into a missing value. -/
def rowCellCLI (row : Row) (letter : String) : Option String :=
  match col_letter_to_index letter with
  | Except.error _ => none
  | Except.ok idx =>
    if idx < (row.length : Int) then
      match pyTupleGet row idx with
      | some c => c
      | none => none
    else none

/-- Embedding of norm: a missing value is the empty string, anything else
is stripped. -/
def norm : Option String → String
  | none => ""
  | some v => pyStrip v

/-- norm applied to a value that is already a string. -/
def normS (v : String) : String := pyStrip v

/-! ## Flexible date parser: parse_date_flexible -/

/-- A value returned by a successful call of the external dateutil parser.
Python datetime guarantees these component ranges. -/
structure DUDate where
  day : Nat
  month : Nat
  year : Nat
  day_lb : 1 ≤ day
  day_ub : day ≤ 31
  month_lb : 1 ≤ month
  month_ub : month ≤ 12
  year_lb : 1 ≤ year
  year_ub : year ≤ 9999

/-- The external dateutil.parser.parse call (dayfirst, fuzzy) is not code of
this repository; the embedding takes it as a parameter: none models a raised
parse error, some a successful parse. -/
abbrev DUOracle := String → Option DUDate

/-- Oracle instantiating the external parser on inputs it rejects (raises
for), such as texts from which no valid calendar date can be formed. -/
def duNone : DUOracle := fun _ => none

/-- Is the character an ASCII word character, as the word-boundary of the
ordinal-suffix regular expression sees it. -/
def isWordChar (c : Char) : Bool := c.isAlphanum || c = '_'

/-- Do two characters spell an ordinal suffix st, nd, rd or th
(case-insensitively)? -/
def ordPair (c1 c2 : Char) : Bool :=
  (c1.toLower = 's' && c2.toLower = 't') || (c1.toLower = 'n' && c2.toLower = 'd') ||
  (c1.toLower = 'r' && c2.toLower = 'd') || (c1.toLower = 't' && c2.toLower = 'h')

/-- Does the previous character exist and is it a digit (the lookbehind of
the ordinal-suffix removal)? -/
def prevIsDigit : Option Char → Bool
  | some p => p.isDigit
  | none => false

/-- Is there a word boundary before the remaining characters? -/
def wordBreakAt : List Char → Bool
  | [] => true
  | c :: _ => !isWordChar c

/-- Remove ordinal suffixes that follow a digit and end at a word boundary,
scanning left to right without overlap, as the re.sub in
parse_date_flexible. -/
def stripOrdAux : Option Char → List Char → List Char
  | _, [] => []
  | _, [c] => [c]
  | prev, c1 :: c2 :: rest =>
    if prevIsDigit prev && ordPair c1 c2 && wordBreakAt rest then
      stripOrdAux (some c2) rest
    else c1 :: stripOrdAux (some c1) (c2 :: rest)

/-- Runs of consecutive digits of length one to four, left to right, as
re.findall of one-to-four digits: run holds the current run reversed and
k its length. -/
def digitRunsGo : List Char → List Char → Nat → List (List Char)
  | [], run, _ => if run.isEmpty then [] else [run.reverse]
  | c :: cs, run, k =>
    if c.isDigit then
      if k < 4 then digitRunsGo cs (c :: run) (k + 1)
      else run.reverse :: digitRunsGo cs [c] 1
    else
      if run.isEmpty then digitRunsGo cs [] 0
      else run.reverse :: digitRunsGo cs [] 0

/-- Embedding of parse_date_flexible.  The external parser attempt is the
oracle du; on its failure the digit-run fallback applies, with the two-digit
year pivot at 30. -/
def parse_date_flexible (du : DUOracle) (text : String) : String × String × String :=
  let t0 := normS text
  if t0 = "" then ("", "", "")
  else
    let t1 := String.mk (stripOrdAux none t0.data)
    let t2 := String.mk (t1.data.map (fun c => if c = '.' || c = '-' then '/' else c))
    match du t2 with
    | some d => (pad2 d.day, pad2 d.month, natToDec d.year)
    | none =>
      match digitRunsGo t2.data [] 0 with
      | p1 :: p2 :: p3 :: _ =>
        (zfill2 (String.mk p1), zfill2 (String.mk p2),
          if p3.length = 2 then
            if decValue p3 > 30 then natToDec (1900 + decValue p3)
            else natToDec (2000 + decValue p3)
          else String.mk p3)
      | _ => ("", "", "")

/-! ## Field-value maps and the CLI row mapping -/

/-- A field-value map, as the Python row_values dict. -/
abbrev FieldMap := String → Option String

/-- The empty dict. -/
def fmEmpty : FieldMap := fun _ => none

/-- Dict assignment row_values[k] = v. -/
def fmSet (m : FieldMap) (k v : String) : FieldMap :=
  fun q => if q = k then some v else m q

/-- Dict read row_values.get(k, empty string). -/
def fmGet (m : FieldMap) (k : String) : String := (m k).getD ""

/-- The static column-letter to field-key mapping COL_MAP, in source order. -/
def COL_MAP : List (String × String) :=
  [("AA", "declaration"), ("E", "day_of_birth"), ("Z", "disabled"),
   ("J", "employer_address"), ("D", "gender"), ("R", "first_child_dob"),
   ("Q", "first_child_name"), ("S", "first_child_school"), ("C", "name_cell"),
   ("L", "ghana_card"), ("M", "marital"), ("F", "mothers_maiden"),
   ("I", "name_of_employer"), ("N", "name_of_spouse"),
   ("AC", "names_and_dates_of_aged_dependants"), ("P", "number_of_chilfren"),
   ("K", "phone_number"), ("U", "second_child_dob"), ("T", "second_child_name"),
   ("V", "second_child_school"), ("O", "spouse_dob"), ("G", "social_sec"),
   ("H", "staff_id"), ("X", "third_child_date"), ("W", "third_child_name"),
   ("Y", "third_child_school")]

/-- Step 1 of the main row loop: populate the simple mapped fields. -/
def baseStep (row : Row) : FieldMap :=
  COL_MAP.foldl (fun m p => fmSet m p.2 (norm (rowCellCLI row p.1))) fmEmpty

/-- Leftmost run of exactly n consecutive digits, as re.search of n digits. -/
def findDigitRun (n : Nat) : List Char → Option (List Char)
  | [] => none
  | c :: rest =>
    if n ≤ (c :: rest).length && ((c :: rest).take n).all Char.isDigit then
      some ((c :: rest).take n)
    else findDigitRun n rest

/-- Year extraction from the timestamp column B: a four-digit run first,
then a two-digit run prefixed with 20; otherwise empty. -/
def yearFromTimestamp (row : Row) : String :=
  let timestamp := norm (rowCellCLI row "B")
  if timestamp = "" then ""
  else
    let mOpt :=
      match findDigitRun 4 timestamp.data with
      | some y => some y
      | none => findDigitRun 2 timestamp.data
    match mOpt with
    | some y => if y.length = 2 then "20" ++ String.mk y else String.mk y
    | none => ""

/-- Step 2: store the derived year. -/
def yearStep (row : Row) (rv : FieldMap) : FieldMap :=
  fmSet rv "year" (yearFromTimestamp row)

/-- CLI name splitting: first whitespace-separated token is the surname,
the rest joined by single spaces is the first name. -/
def cliNameValues (name_cell : String) : String × String :=
  if name_cell = "" then ("", "")
  else
    match reSplitWsOfStripped name_cell with
    | [] => ("", "")
    | p :: rest => (p, if rest = [] then "" else String.intercalate " " rest)

/-- Step 3: store surname and first_name. -/
def nameStep (rv : FieldMap) : FieldMap :=
  let sf := cliNameValues (fmGet rv "name_cell")
  fmSet (fmSet rv "surname" sf.1) "first_name" sf.2

/-- Step 4: synthesize a staff identifier when the cell was empty. -/
def staffStep (i : Nat) (rv : FieldMap) : FieldMap :=
  let staff_id := normS (fmGet rv "staff_id")
  fmSet rv "staff_id" (if staff_id = "" then "unknown_" ++ natToDec i else staff_id)

/-- Values assigned to disabled and not_disabled from the raw disability
source: a non-empty source starting with y checks disabled, a non-empty
other source checks not_disabled, an empty source checks neither. -/
def disabilityValues (dis_raw : String) : String × String :=
  if dis_raw ≠ "" then
    if pyStarts (pyLower dis_raw) "y" then ("Yes", "") else ("", "Yes")
  else ("", "")

/-- Step 5: checkbox derivation for gender, marital status and disability. -/
def checkboxStep (rv : FieldMap) : FieldMap :=
  let gender_raw := normS (fmGet rv "gender")
  let rv1 := fmSet rv "male" (if pyStarts (pyLower gender_raw) "m" then "Yes" else "")
  let rv2 := fmSet rv1 "female" (if pyStarts (pyLower gender_raw) "f" then "Yes" else "")
  let marital_raw := normS (fmGet rv2 "marital")
  let rv3 := fmSet rv2 "married" (if pyContains (pyLower marital_raw) "married" then "Yes" else "")
  let rv4 := fmSet rv3 "single" (if pyContains (pyLower marital_raw) "single" then "Yes" else "")
  let dn := disabilityValues (normS (fmGet rv4 "disabled"))
  fmSet (fmSet rv4 "disabled" dn.1) "not_disabled" dn.2

/-- Step 6a: decompose the date of birth. -/
def dobStep (du : DUOracle) (rv : FieldMap) : FieldMap :=
  let t := parse_date_flexible du (fmGet rv "day_of_birth")
  fmSet (fmSet (fmSet rv "day_of_birth" t.1) "month_of_birth" t.2.1) "year_of_birth" t.2.2

/-- Step 6b: decompose the spouse date of birth. -/
def spouseStep (du : DUOracle) (rv : FieldMap) : FieldMap :=
  let t := parse_date_flexible du (fmGet rv "spouse_dob")
  fmSet (fmSet (fmSet rv "spouse_day_of_birth" t.1) "spouse_month_of_birth" t.2.1)
    "spouse_year_of_birth" t.2.2

/-- Strip leading and trailing slashes, as Python str.strip of a slash. -/
def stripSlash (s : String) : String :=
  String.mk (((s.data.dropWhile (fun c => c = '/')).reverse.dropWhile (fun c => c = '/')).reverse)

/-- Recompose a child date as day/month/year, empty if any component is. -/
def childJoin (t : String × String × String) : String :=
  stripSlash (if t.1 ≠ "" && t.2.1 ≠ "" && t.2.2 ≠ "" then t.1 ++ "/" ++ t.2.1 ++ "/" ++ t.2.2 else "")

/-- Step 6c: reformat the three child date fields. -/
def childrenStep (du : DUOracle) (rv : FieldMap) : FieldMap :=
  let rv1 := fmSet rv "first_child_dob" (childJoin (parse_date_flexible du (fmGet rv "first_child_dob")))
  let rv2 := fmSet rv1 "second_child_dob" (childJoin (parse_date_flexible du (fmGet rv1 "second_child_dob")))
  fmSet rv2 "third_child_date" (childJoin (parse_date_flexible du (fmGet rv2 "third_child_date")))

/-- Step 7: constant change marker and re-normalized contact fields. -/
def constStep (rv : FieldMap) : FieldMap :=
  let rv1 := fmSet rv "change" "Yes"
  let rv2 := fmSet rv1 "phone_number" (normS (fmGet rv1 "phone_number"))
  let rv3 := fmSet rv2 "ghana_card" (normS (fmGet rv2 "ghana_card"))
  fmSet rv3 "social_sec" (normS (fmGet rv3 "social_sec"))

/-- Step 9: overwrite the year with the fixed run constant and set the
declaration date to the current date (a run-time constant parameter). -/
def finalStep (todayStr : String) (rv : FieldMap) : FieldMap :=
  fmSet (fmSet rv "year" "2026") "declaration_date" todayStr

/-- The complete CLI per-row mapping of main (steps in source order).  The
total row count only influences output file names, never the map. -/
def mapRowCLI (du : DUOracle) (todayStr : String) (row : Row) (i _total : Nat) : FieldMap :=
  finalStep todayStr (constStep (childrenStep du (spouseStep du (dobStep du
    (checkboxStep (staffStep i (nameStep (yearStep row (baseStep row)))))))))

/-! ## Streamlit row mapping -/

/-- The inline letter-to-index conversion of the streamlit app: same fold,
but without the character validity check. -/
def stColIdx (letter : String) : Int :=
  ((pyUpper (pyStrip letter)).data.foldl
    (fun idx ch => idx * 26 + ((ch.toNat : Int) - 65 + 1)) 0) - 1

/-- The streamlit cell read: normalized cell when the index passes the
bound check, else the empty string. -/
def stCellVal (row : Row) (letter : String) : String :=
  let ci := stColIdx letter
  if ci < (row.length : Int) then
    match pyTupleGet row ci with
    | some c => norm c
    | none => ""
  else ""

/-- The streamlit base fold over COL_MAP. -/
def stBaseStep (row : Row) : FieldMap :=
  COL_MAP.foldl (fun m p => fmSet m p.2 (stCellVal row p.1)) fmEmpty

/-- Streamlit name splitting via str.split(). -/
def stNameValues (name_cell : String) : String × String :=
  let parts := pySplitPlain name_cell
  ((match parts with | [] => "" | p :: _ => p),
   if parts.length > 1 then String.intercalate " " parts.tail else "")

/-- The complete streamlit per-row mapping (derivations in source order):
base fields, name split, date of birth decomposition, and the three
constants.  Checkboxes, staff-id synthesis, spouse and children dates are
not derived on this path. -/
def mapRowST (du : DUOracle) (todayStr : String) (row : Row) (_i _total : Nat) : FieldMap :=
  let rv := stBaseStep row
  let nf := stNameValues (fmGet rv "name_cell")
  let rv1 := fmSet (fmSet rv "surname" nf.1) "first_name" nf.2
  let t := parse_date_flexible du (fmGet rv1 "day_of_birth")
  let rv2 := fmSet (fmSet (fmSet rv1 "day_of_birth" t.1) "month_of_birth" t.2.1) "year_of_birth" t.2.2
  let rv3 := fmSet rv2 "change" "Yes"
  let rv4 := fmSet rv3 "year" "2026"
  fmSet rv4 "declaration_date" todayStr

/-! ## Renderer checkbox logic (fill_pdf) -/

/-- The checkbox field names, as sum(CHECKBOX_GROUPS.values(), ()). -/
def checkboxFields : List String :=
  ["male", "female", "married", "single", "disabled", "not_disabled"]

/-- The per-annotation checked test of fill_pdf: Python operator precedence
makes this (value truthy and lower starts with y) or lower starts with m or
lower starts with mar. -/
def checkboxAS (value : String) : Bool :=
  (value ≠ "" && pyStarts (pyLower value) "y") || pyStarts (pyLower value) "m"
    || pyStarts (pyLower value) "mar"

/-- Visual state fill_pdf gives an interactive field: change is always
checked; a checkbox-group field is checked per checkboxAS of its normalized
map value; other fields take the text path (none). -/
def annotState (fieldName : String) (row_values : FieldMap) : Option Bool :=
  if fieldName = "change" then some true
  else
    let value := normS (fmGet row_values fieldName)
    if checkboxFields.contains fieldName then some (checkboxAS value) else none

/-- The normalized marital source value the checkbox step reads for a row. -/
def maritalSource (row : Row) : String := normS (norm (rowCellCLI row "M"))

/-- The normalized staff-id source value the staff step reads for a row. -/
def staffSource (row : Row) : String := normS (norm (rowCellCLI row "H"))

/-- The derived fields both drivers compute with the same logic, plus the
run constants: the keys on which the two per-row maps are expected to
agree. -/
def commonKeys : List String :=
  ["surname", "first_name", "day_of_birth", "month_of_birth", "year_of_birth",
   "change", "year", "declaration_date"]

/-! ## Basic lemmas about field maps -/

/-- Reading a map after an assignment. -/
@[simp] theorem fmGet_fmSet (m : FieldMap) (k v q : String) :
    fmGet (fmSet m k v) q = if q = k then v else fmGet m q := by
  unfold fmGet fmSet
  split <;> rfl

/-- The empty map reads as empty strings. -/
@[simp] theorem fmGet_fmEmpty (q : String) : fmGet fmEmpty q = "" := rfl

/-! ## Claim C1: the year field is always the fixed constant -/

/-- Claim C1: for every spreadsheet row, the field-value map handed to the
renderer by the CLI path has its year field equal to the fixed configured
constant 2026, whatever year was derived from the timestamp column: step 9
overwrites it unconditionally. -/
theorem year_field_is_constant (du : DUOracle) (todayStr : String) (row : Row)
    (i total : Nat) : fmGet (mapRowCLI du todayStr row i total) "year" = "2026" := by
  simp +decide [mapRowCLI, finalStep]

theorem isPrefixOf_singleton_head {a : Char} {l : List Char} (h : [a].isPrefixOf l = true) :
    ∃ t, l = a :: t := by
  cases l with
  | nil => simp [List.isPrefixOf] at h
  | cons c t =>
    refine ⟨t, ?_⟩
    simp [List.isPrefixOf] at h
    rw [h]

theorem starts_m_f_absurd (s : String) :
    ¬(pyStarts s "m" = true ∧ pyStarts s "f" = true) := by
  unfold pyStarts
  rw [show "m".data = ['m'] from rfl, show "f".data = ['f'] from rfl]
  rintro ⟨h1, h2⟩
  obtain ⟨t1, e1⟩ := isPrefixOf_singleton_head h1
  obtain ⟨t2, e2⟩ := isPrefixOf_singleton_head h2
  rw [e1] at e2
  exact absurd (List.cons.injEq .. ▸ e2).1 (by decide)

theorem disabilityValues_not_both (s : String) :
    ¬((disabilityValues s).1 = "Yes" ∧ (disabilityValues s).2 = "Yes") := by
  unfold disabilityValues
  split_ifs <;> simp

theorem base_lookup_marital (row : Row) :
    fmGet (baseStep row) "marital" = norm (rowCellCLI row "M") := by
  simp +decide [baseStep, COL_MAP, List.foldl_cons, List.foldl_nil]

theorem base_lookup_staff (row : Row) :
    fmGet (baseStep row) "staff_id" = norm (rowCellCLI row "H") := by
  simp +decide [baseStep, COL_MAP, List.foldl_cons, List.foldl_nil]

/-- Claim C2 counterexample: a row whose marital cell contains both the words
married and single makes the mapper set married and single to Yes at once,
so the at-most-one-member invariant of the checkbox groups fails on the
marital group. -/
theorem checkbox_mutex_counterexample :
    fmGet (mapRowCLI duNone "17/10/2026" (List.replicate 12 none ++ [some "married single"]) 1 1) "married" = "Yes" ∧
    fmGet (mapRowCLI duNone "17/10/2026" (List.replicate 12 none ++ [some "married single"]) 1 1) "single" = "Yes" :=
  ⟨rfl, rfl⟩

/-- Claim C2 as amended: in every produced field-value map at most one of
male and female is Yes and at most one of disabled and not_disabled is Yes;
for married and single this holds whenever the normalized marital source
does not contain both the substrings married and single. -/
theorem checkbox_groups_mutex (du : DUOracle) (todayStr : String) (row : Row) (i total : Nat)
    (hmar : ¬(pyContains (pyLower (maritalSource row)) "married" = true ∧
              pyContains (pyLower (maritalSource row)) "single" = true)) :
    ¬(fmGet (mapRowCLI du todayStr row i total) "male" = "Yes" ∧
      fmGet (mapRowCLI du todayStr row i total) "female" = "Yes") ∧
    ¬(fmGet (mapRowCLI du todayStr row i total) "married" = "Yes" ∧
      fmGet (mapRowCLI du todayStr row i total) "single" = "Yes") ∧
    ¬(fmGet (mapRowCLI du todayStr row i total) "disabled" = "Yes" ∧
      fmGet (mapRowCLI du todayStr row i total) "not_disabled" = "Yes") := by
  simp only [maritalSource] at hmar
  simp +decide [mapRowCLI, finalStep, constStep, childrenStep, spouseStep, dobStep,
    checkboxStep, staffStep, nameStep, yearStep, base_lookup_marital]
  refine ⟨fun hm => ?_, fun hmd => ?_, fun hd => ?_⟩
  · cases hf : pyStarts (pyLower (normS (fmGet (baseStep row) "gender"))) "f" with
    | false => rfl
    | true => exact absurd ⟨hm, hf⟩ (starts_m_f_absurd _)
  · cases hs : pyContains (pyLower (normS (norm (rowCellCLI row "M")))) "single" with
    | false => rfl
    | true => exact absurd ⟨hmd, hs⟩ hmar
  · exact fun hd2 => disabilityValues_not_both _ ⟨hd, hd2⟩

theorem natDigits_ne_nil (n : Nat) : natDigits n ≠ [] := by
  unfold natDigits
  split <;> simp

theorem unknown_append_ne_empty (j : Nat) : ("unknown_" ++ natToDec j) ≠ "" := by
  intro h
  have h2 := congrArg String.data h
  rw [String.data_append] at h2
  simp +decide at h2

/-- Claim C10: every produced field-value map has the change field equal to
Yes and a non-empty staff identifier; when the staff-id cell is empty after
normalization the identifier is the synthesized unknown_(row number). -/
theorem staff_id_and_change (du : DUOracle) (todayStr : String) (row : Row) (i total : Nat) :
    fmGet (mapRowCLI du todayStr row i total) "change" = "Yes" ∧
    fmGet (mapRowCLI du todayStr row i total) "staff_id" ≠ "" ∧
    (staffSource row = "" →
      fmGet (mapRowCLI du todayStr row i total) "staff_id" = "unknown_" ++ natToDec i) := by
  simp only [staffSource]
  simp +decide [mapRowCLI, finalStep, constStep, childrenStep, spouseStep, dobStep,
    checkboxStep, staffStep, nameStep, yearStep, base_lookup_staff]
  constructor
  · by_cases hs : normS (norm (rowCellCLI row "H")) = ""
    · rw [if_pos hs]; exact unknown_append_ne_empty i
    · rw [if_neg hs]; exact hs
  · intro h1 h2; exact absurd h1 h2

/-- Claim C5: the per-row mapping never fails on malformed cells: a column
whose conversion raises, or whose index fails the bound check against the
row length, contributes the empty string for that field.  The whole mapping
is a total function of the row, so no step can fail a row. -/
theorem cell_out_of_range_is_empty (row : Row) (letter : String)
    (h : ∀ i : Int, col_letter_to_index letter = Except.ok i → (row.length : Int) ≤ i) :
    norm (rowCellCLI row letter) = "" := by
  unfold rowCellCLI
  rcases hc : col_letter_to_index letter with e | idx
  · simp only [hc]
    rfl
  · have hle := h idx hc
    simp only [hc]
    rw [if_neg (by omega)]
    rfl

/-- Claim C7 counterexample: on the empty input the column locator raises
no error although the claim promises a non-negative index on every
non-raising input: it returns minus one. -/
theorem locator_empty_input_negative :
    col_letter_to_index "" = Except.ok (-1) ∧ ¬((0:Int) ≤ -1) := ⟨rfl, by decide⟩

theorem colIdxAux_none_iff (cs : List Char) : ∀ acc : Int,
    (colIdxAux cs acc = none ↔ ∃ c ∈ cs, ¬('A' ≤ c ∧ c ≤ 'Z')) := by
  induction cs with
  | nil => intro acc; simp [colIdxAux]
  | cons c t ih =>
    intro acc
    unfold colIdxAux
    split
    case isTrue h => simp [ih, List.mem_cons, h.1, h.2]
    case isFalse h =>
      exact ⟨fun hy => ⟨c, by simp, h⟩, fun hy => by trivial⟩

theorem colIdxAux_ge_one (cs : List Char) : ∀ acc v : Int, 1 ≤ acc →
    colIdxAux cs acc = some v → 1 ≤ v := by
  induction cs with
  | nil =>
    intro acc v h1 h
    unfold colIdxAux at h
    injection h with h2
    omega
  | cons c t ih =>
    intro acc v h1 h
    unfold colIdxAux at h
    split at h
    case isTrue hv =>
      have hA : (65:Nat) ≤ c.toNat := hv.1
      refine ih _ v ?_ h
      have : (65:Int) ≤ (c.toNat : Int) := by exact_mod_cast hA
      nlinarith
    case isFalse hv => exact absurd h (by simp)

theorem mk_ne_empty_iff (l : List Char) : String.mk l ≠ "" ↔ l ≠ [] := by
  constructor
  · intro h hl; exact h (by rw [hl])
  · intro h hl
    exact h (by have := congrArg String.data hl; exact this)

/-- Claim C7 as amended: the locator raises exactly when some character of
the stripped upper-cased input lies outside A-Z; on success it returns the
base-26 value minus one, which is non-negative whenever the stripped input
is non-empty (the empty input yields minus one); and the four documented
examples hold, case-insensitively. -/
theorem locator_amended (s : String) :
    ((∃ e, col_letter_to_index s = Except.error e) ↔
      ∃ c ∈ (pyUpper (pyStrip s)).data, ¬('A' ≤ c ∧ c ≤ 'Z')) ∧
    (∀ i : Int, col_letter_to_index s = Except.ok i → pyStrip s ≠ "" → 0 ≤ i) ∧
    col_letter_to_index "A" = Except.ok 0 ∧ col_letter_to_index "Z" = Except.ok 25 ∧
    col_letter_to_index "AA" = Except.ok 26 ∧ col_letter_to_index "ab" = Except.ok 27 := by
  refine ⟨?_, ?_, rfl, rfl, rfl, rfl⟩
  · have hiff := colIdxAux_none_iff (pyUpper (pyStrip s)).data 0
    simp only [col_letter_to_index]
    cases hA : colIdxAux (pyUpper (pyStrip s)).data 0 with
    | some v =>
      rw [hA] at hiff
      refine iff_of_false ?_ ?_
      · rintro ⟨e, he⟩; exact absurd he (by simp)
      · intro hx; exact absurd (hiff.mpr hx) (by simp)
    | none =>
      rw [hA] at hiff
      exact iff_of_true ⟨_, rfl⟩ (hiff.mp rfl)
  · intro i hok hne
    simp only [col_letter_to_index] at hok
    cases hA : colIdxAux (pyUpper (pyStrip s)).data 0 with
    | none => rw [hA] at hok; exact absurd hok (by simp)
    | some v =>
      rw [hA] at hok
      simp only [Except.ok.injEq] at hok
      have hdata : (pyUpper (pyStrip s)).data ≠ [] := by
        intro hl
        have h3 : (pyStrip s).data.map Char.toUpper = [] := hl
        exact (mk_ne_empty_iff (stripList s.data)).mp hne (List.map_eq_nil_iff.mp h3)
      cases hd : (pyUpper (pyStrip s)).data with
      | nil => exact absurd hd hdata
      | cons c t =>
        rw [hd] at hA
        unfold colIdxAux at hA
        split at hA
        case isTrue hv =>
          have hA65 : (65:Nat) ≤ c.toNat := hv.1
          have h65 : (65:Int) ≤ (c.toNat : Int) := by exact_mod_cast hA65
          have := colIdxAux_ge_one t _ v (by nlinarith) hA
          omega
        case isFalse => exact absurd hA (by simp)


theorem pyStarts_mar_imp_m (s : String) (h : pyStarts s "mar" = true) : pyStarts s "m" = true := by
  unfold pyStarts at h ⊢
  rw [show "mar".data = ['m','a','r'] from rfl] at h
  rw [show "m".data = ['m'] from rfl]
  cases hd : s.data with
  | nil => rw [hd] at h; exact absurd h (by decide)
  | cons c t =>
    rw [hd] at h
    simp only [List.isPrefixOf, Bool.and_eq_true] at h ⊢
    exact ⟨h.1, trivial⟩

theorem checkboxAS_iff (v : String) :
    checkboxAS v = true ↔
      (pyStarts (pyLower v) "y" = true ∨ pyStarts (pyLower v) "m" = true) := by
  unfold checkboxAS
  simp only [Bool.or_eq_true, Bool.and_eq_true, decide_eq_true_eq]
  constructor
  · rintro ((⟨hne, hy⟩ | hm) | hmar)
    · exact Or.inl hy
    · exact Or.inr hm
    · exact Or.inr (pyStarts_mar_imp_m _ hmar)
  · rintro (hy | hm)
    · refine Or.inl (Or.inl ⟨?_, hy⟩)
      intro hv
      rw [hv] at hy
      exact absurd hy (by decide)
    · exact Or.inl (Or.inr hm)

/-- Claim C4 counterexample: the renderer checks a checkbox-group field
whose map value is the word married, although that value is not Yes, so the
checked-iff-Yes contract fails. -/
theorem renderer_checkbox_counterexample :
    annotState "married" (fmSet fmEmpty "married" "married") = some true ∧
    normS (fmGet (fmSet fmEmpty "married" "married") "married") ≠ "Yes" := ⟨rfl, by decide⟩

/-- Claim C4 as amended: for every template field in a checkbox group, the
renderer checks it exactly when the normalized map value, lower-cased,
starts with y or with m (the additional mar test of the source is subsumed
by the m test).  On the values Yes and empty that the mapper produces this
coincides with an equality test against Yes, but other values such as
married are also checked. -/
theorem renderer_checkbox_amended (f : String) (rv : FieldMap) (hf : f ∈ checkboxFields) :
    annotState f rv = some true ↔
      (pyStarts (pyLower (normS (fmGet rv f))) "y" = true ∨
       pyStarts (pyLower (normS (fmGet rv f))) "m" = true) := by
  fin_cases hf <;>
    · simp +decide [annotState]
      exact checkboxAS_iff _

/-- Witness for the amended claim C4 at a concrete field and map. -/
theorem renderer_checkbox_amended_witness :
    annotState "male" (fmSet fmEmpty "male" "Yes") = some true ↔
      (pyStarts (pyLower (normS (fmGet (fmSet fmEmpty "male" "Yes") "male"))) "y" = true ∨
       pyStarts (pyLower (normS (fmGet (fmSet fmEmpty "male" "Yes") "male"))) "m" = true) :=
  renderer_checkbox_amended "male" (fmSet fmEmpty "male" "Yes") (by decide)

/-- Witness for the amended claim C2 at a concrete row whose marital cell
is the single word Single. -/
theorem checkbox_groups_mutex_witness :
    ¬(fmGet (mapRowCLI duNone "x" (List.replicate 12 none ++ [some "Single"]) 3 5) "male" = "Yes" ∧
      fmGet (mapRowCLI duNone "x" (List.replicate 12 none ++ [some "Single"]) 3 5) "female" = "Yes") ∧
    ¬(fmGet (mapRowCLI duNone "x" (List.replicate 12 none ++ [some "Single"]) 3 5) "married" = "Yes" ∧
      fmGet (mapRowCLI duNone "x" (List.replicate 12 none ++ [some "Single"]) 3 5) "single" = "Yes") ∧
    ¬(fmGet (mapRowCLI duNone "x" (List.replicate 12 none ++ [some "Single"]) 3 5) "disabled" = "Yes" ∧
      fmGet (mapRowCLI duNone "x" (List.replicate 12 none ++ [some "Single"]) 3 5) "not_disabled" = "Yes") :=
  checkbox_groups_mutex duNone "x" (List.replicate 12 none ++ [some "Single"]) 3 5 (by decide)

/-- Witness for claim C5: column ZZ is out of range for the empty row and
yields the empty string. -/
theorem cell_out_of_range_witness : norm (rowCellCLI ([] : Row) "ZZ") = "" :=
  cell_out_of_range_is_empty [] "ZZ" (by
    intro i h
    rw [show col_letter_to_index "ZZ" = Except.ok 701 from rfl] at h
    injection h with h2
    rw [show ((([] : Row).length : Int)) = 0 from rfl]
    omega)

/-- Witness for the amended claim C7 at the lower-case input ab. -/
theorem locator_amended_witness : col_letter_to_index "ab" = Except.ok 27 ∧ (0:Int) ≤ 27 :=
  ⟨rfl, (locator_amended "ab").2.1 27 rfl (by decide)⟩

/-- Witness for claim C10: an empty row at position seven gets the
synthesized identifier and the constant change marker. -/
theorem staff_id_and_change_witness :
    fmGet (mapRowCLI duNone "x" ([] : Row) 7 37) "change" = "Yes" ∧
    fmGet (mapRowCLI duNone "x" ([] : Row) 7 37) "staff_id" = "unknown_" ++ natToDec 7 :=
  ⟨(staff_id_and_change duNone "x" [] 7 37).1,
   (staff_id_and_change duNone "x" [] 7 37).2.2 (by decide)⟩

theorem mk_data (l : List Char) : (String.mk l).data = l := rfl

theorem mk_length (l : List Char) : (String.mk l).length = l.length := rfl

theorem digitChar_isDigit (k : Nat) (h : k < 10) : (Char.ofNat (48 + k)).isDigit = true := by
  interval_cases k <;> decide

theorem natDigits_all_digit (n : Nat) : ∀ c ∈ natDigits n, c.isDigit = true := by
  induction n using Nat.strong_induction_on with
  | _ n ih =>
    unfold natDigits
    split
    case isTrue h =>
      intro c hc
      simp only [List.mem_singleton] at hc
      rw [hc]; exact digitChar_isDigit n h
    case isFalse h =>
      intro c hc
      rw [List.mem_append] at hc
      rcases hc with hc | hc
      · exact ih (n / 10) (Nat.div_lt_self (by omega) (by omega)) c hc
      · simp only [List.mem_singleton] at hc
        rw [hc]; exact digitChar_isDigit (n % 10) (Nat.mod_lt _ (by omega))

theorem natDigits_one_of_lt (n : Nat) (h : n < 10) : natDigits n = [Char.ofNat (48 + n)] := by
  unfold natDigits
  rw [if_pos h]

theorem natDigits_length_two (n : Nat) (h10 : 10 ≤ n) (h : n < 100) :
    (natDigits n).length = 2 := by
  unfold natDigits
  rw [if_neg (by omega), List.length_append, natDigits_one_of_lt (n / 10) (by omega)]
  simp

theorem pad2_length_two (n : Nat) (h : n < 100) : (pad2 n).length = 2 := by
  unfold pad2
  rw [mk_length]
  split
  case isTrue h10 => rw [natDigits_one_of_lt n h10]; rfl
  case isFalse h10 => exact natDigits_length_two n (by omega) h

theorem pad2_all_digit (n : Nat) : (pad2 n).data.all Char.isDigit = true := by
  unfold pad2
  rw [mk_data, List.all_eq_true]
  split
  case isTrue h10 =>
    intro c hc
    rcases List.mem_cons.mp hc with hc | hc
    · rw [hc]; decide
    · exact natDigits_all_digit n c hc
  case isFalse h10 =>
    intro c hc
    exact natDigits_all_digit n c hc

theorem natToDec_ne_empty (n : Nat) : natToDec n ≠ "" := by
  unfold natToDec
  rw [mk_ne_empty_iff]
  exact natDigits_ne_nil n

theorem pad2_ne_empty (n : Nat) : pad2 n ≠ "" := by
  unfold pad2
  rw [mk_ne_empty_iff]
  split
  · simp
  · exact natDigits_ne_nil n

theorem zfill2_spec (l : List Char) (h1 : 1 ≤ l.length) (h4 : l.length ≤ 4)
    (hd : ∀ c ∈ l, c.isDigit = true) :
    2 ≤ (zfill2 (String.mk l)).length ∧ (zfill2 (String.mk l)).length ≤ 4 ∧
    (zfill2 (String.mk l)).data.all Char.isDigit = true ∧ zfill2 (String.mk l) ≠ "" := by
  unfold zfill2
  simp only [mk_length, mk_data, mk_ne_empty_iff]
  refine ⟨?_, ?_, ?_, ?_⟩
  · rw [List.length_append, List.length_replicate]; omega
  · rw [List.length_append, List.length_replicate]; omega
  · rw [List.all_eq_true]
    intro c hc
    rcases List.mem_append.mp hc with hc | hc
    · rw [(List.mem_replicate.mp hc).2]; decide
    · exact hd c hc
  · intro heq
    have := congrArg List.length heq
    rw [List.length_append, List.length_replicate, List.length_nil] at this
    omega

theorem digitRunsGo_mem (cs : List Char) : ∀ (run : List Char) (k : Nat),
    run.length = k → k ≤ 4 → (∀ c ∈ run, c.isDigit = true) →
    ∀ r ∈ digitRunsGo cs run k,
      1 ≤ r.length ∧ r.length ≤ 4 ∧ ∀ c ∈ r, c.isDigit = true := by
  induction cs with
  | nil =>
    intro run k hlen hk hdig r hr
    unfold digitRunsGo at hr
    split at hr
    case isTrue he => exact absurd hr (List.not_mem_nil r)
    case isFalse he =>
      rw [List.mem_singleton] at hr
      subst hr
      have hne : run ≠ [] := by
        intro h0; rw [h0] at he; exact he rfl
      refine ⟨?_, ?_, ?_⟩
      · rw [List.length_reverse]
        have := List.length_pos.mpr hne
        omega
      · rw [List.length_reverse]; omega
      · intro c hc; exact hdig c (List.mem_reverse.mp hc)
  | cons c cs ih =>
    intro run k hlen hk hdig r hr
    unfold digitRunsGo at hr
    by_cases hc : c.isDigit = true
    · rw [if_pos hc] at hr
      by_cases hk4 : k < 4
      · rw [if_pos hk4] at hr
        refine ih (c :: run) (k + 1) ?_ (by omega) ?_ r hr
        · simp [hlen]
        · intro x hx
          rcases List.mem_cons.mp hx with hx | hx
          · rw [hx]; exact hc
          · exact hdig x hx
      · rw [if_neg hk4] at hr
        rcases List.mem_cons.mp hr with hr | hr
        · subst hr
          refine ⟨?_, ?_, ?_⟩
          · rw [List.length_reverse]; omega
          · rw [List.length_reverse]; omega
          · intro x hx; exact hdig x (List.mem_reverse.mp hx)
        · refine ih [c] 1 rfl (by omega) ?_ r hr
          intro x hx
          rw [List.mem_singleton] at hx
          rw [hx]; exact hc
    · rw [if_neg hc] at hr
      by_cases he : run.isEmpty = true
      · rw [if_pos he] at hr
        exact ih [] 0 rfl (by omega) (by intro x hx; exact absurd hx (List.not_mem_nil x)) r hr
      · rw [if_neg he] at hr
        rcases List.mem_cons.mp hr with hr | hr
        · subst hr
          have hne : run ≠ [] := by
            intro h0; rw [h0] at he; exact he rfl
          refine ⟨?_, ?_, ?_⟩
          · rw [List.length_reverse]
            have := List.length_pos.mpr hne
            omega
          · rw [List.length_reverse]; omega
          · intro x hx; exact hdig x (List.mem_reverse.mp hx)
        · exact ih [] 0 rfl (by omega) (by intro x hx; exact absurd hx (List.not_mem_nil x)) r hr

theorem runsTriple_facts (cs : List Char) (p1 p2 p3 : List Char) (rest : List (List Char))
    (heq : digitRunsGo cs [] 0 = p1 :: p2 :: p3 :: rest) :
    (1 ≤ p1.length ∧ p1.length ≤ 4 ∧ ∀ c ∈ p1, c.isDigit = true) ∧
    (1 ≤ p2.length ∧ p2.length ≤ 4 ∧ ∀ c ∈ p2, c.isDigit = true) ∧
    (1 ≤ p3.length ∧ p3.length ≤ 4 ∧ ∀ c ∈ p3, c.isDigit = true) := by
  have hmem := digitRunsGo_mem cs [] 0 rfl (by omega)
    (by intro x hx; exact absurd hx (List.not_mem_nil x))
  exact ⟨hmem p1 (by rw [heq]; simp), hmem p2 (by rw [heq]; simp),
         hmem p3 (by rw [heq]; simp)⟩

/-- Claim C9: for every oracle modelling the external parser and every
input, the returned date triple is all-or-nothing: either all three
components are empty or none is. -/
theorem parse_date_all_or_nothing (du : DUOracle) (t : String) :
    ((parse_date_flexible du t).1 = "" ∧ (parse_date_flexible du t).2.1 = "" ∧
      (parse_date_flexible du t).2.2 = "") ∨
    ((parse_date_flexible du t).1 ≠ "" ∧ (parse_date_flexible du t).2.1 ≠ "" ∧
      (parse_date_flexible du t).2.2 ≠ "") := by
  simp only [parse_date_flexible]
  split
  case isTrue h => left; exact ⟨rfl, rfl, rfl⟩
  case isFalse h =>
    split
    case h_1 d hd =>
      right
      exact ⟨pad2_ne_empty _, pad2_ne_empty _, natToDec_ne_empty _⟩
    case h_2 hd =>
      split
      case h_1 p1 p2 p3 rest heq =>
        have hf := runsTriple_facts _ _ _ _ _ heq
        right
        dsimp only
        refine ⟨?_, ?_, ?_⟩
        · exact (zfill2_spec p1 hf.1.1 hf.1.2.1 hf.1.2.2).2.2.2
        · exact (zfill2_spec p2 hf.2.1.1 hf.2.1.2.1 hf.2.1.2.2).2.2.2
        · split
          · split
            · exact natToDec_ne_empty _
            · exact natToDec_ne_empty _
          · rw [mk_ne_empty_iff]
            intro h0
            have := hf.2.2.1
            rw [h0] at this
            simp at this
      case h_2 => left; exact ⟨rfl, rfl, rfl⟩

/-- Claim C8 as amended: the day and month components are each either empty
or an all-digit string of two to four characters, zero-padded to at least
width two; the fallback zero-padding never truncates a longer digit run, so
exactly-two digits is only guaranteed when the contributing run has at most
two digits or the external parser succeeded. -/
theorem parse_date_day_month_shape (du : DUOracle) (t : String) :
    ((parse_date_flexible du t).1 = "" ∨
      (2 ≤ (parse_date_flexible du t).1.length ∧ (parse_date_flexible du t).1.length ≤ 4 ∧
        (parse_date_flexible du t).1.data.all Char.isDigit = true)) ∧
    ((parse_date_flexible du t).2.1 = "" ∨
      (2 ≤ (parse_date_flexible du t).2.1.length ∧ (parse_date_flexible du t).2.1.length ≤ 4 ∧
        (parse_date_flexible du t).2.1.data.all Char.isDigit = true)) := by
  simp only [parse_date_flexible]
  split
  case isTrue h => exact ⟨Or.inl rfl, Or.inl rfl⟩
  case isFalse h =>
    split
    case h_1 d hd =>
      have hd1 := pad2_length_two d.day (by have := d.day_ub; omega)
      have hd2 := pad2_length_two d.month (by have := d.month_ub; omega)
      dsimp only
      exact ⟨Or.inr ⟨by omega, by omega, pad2_all_digit _⟩,
             Or.inr ⟨by omega, by omega, pad2_all_digit _⟩⟩
    case h_2 hd =>
      split
      case h_1 p1 p2 p3 rest heq =>
        have hf := runsTriple_facts _ _ _ _ _ heq
        have z1 := zfill2_spec p1 hf.1.1 hf.1.2.1 hf.1.2.2
        have z2 := zfill2_spec p2 hf.2.1.1 hf.2.1.2.1 hf.2.1.2.2
        dsimp only
        exact ⟨Or.inr ⟨z1.1, z1.2.1, z1.2.2.1⟩, Or.inr ⟨z2.1, z2.2.1, z2.2.2.1⟩⟩
      case h_2 => exact ⟨Or.inl rfl, Or.inl rfl⟩

/-- Claim C8 counterexample: on a text the external parser rejects, the
digit-run fallback stores a four-digit first run unchanged as the day, so
the day component is neither empty nor exactly two digits. -/
theorem parse_date_long_day_counterexample :
    (parse_date_flexible duNone "9999 9999 9999").1 = "9999" ∧
    ¬((parse_date_flexible duNone "9999 9999 9999").1 = "" ∨
      (parse_date_flexible duNone "9999 9999 9999").1.length = 2) := ⟨rfl, by decide⟩

theorem stColIdx_of_aux (cs : List Char) : ∀ acc v : Int, colIdxAux cs acc = some v →
    cs.foldl (fun idx ch => idx * 26 + ((ch.toNat : Int) - 65 + 1)) acc = v := by
  induction cs with
  | nil =>
    intro acc v h
    unfold colIdxAux at h
    cases h
    rfl
  | cons c t ih =>
    intro acc v h
    unfold colIdxAux at h
    split at h
    case isTrue hv => rw [List.foldl_cons]; exact ih _ v h
    case isFalse hv => exact absurd h (by simp)

theorem stColIdx_eq_ok (letter : String) (i : Int)
    (h : col_letter_to_index letter = Except.ok i) : stColIdx letter = i := by
  simp only [col_letter_to_index] at h
  cases hA : colIdxAux (pyUpper (pyStrip letter)).data 0 with
  | none => rw [hA] at h; exact absurd h (by simp)
  | some v =>
    rw [hA] at h
    simp only [Except.ok.injEq] at h
    unfold stColIdx
    rw [stColIdx_of_aux _ 0 v hA]
    omega

theorem cell_val_agree (row : Row) (letter : String) (i : Int)
    (h : col_letter_to_index letter = Except.ok i) :
    norm (rowCellCLI row letter) = stCellVal row letter := by
  simp only [rowCellCLI, stCellVal, h, stColIdx_eq_ok letter i h]
  split
  · cases h2 : pyTupleGet row i with
    | some c => rfl
    | none => rfl
  · rfl

theorem colmap_cell_agree (row : Row) : ∀ p ∈ COL_MAP,
    norm (rowCellCLI row p.1) = stCellVal row p.1 := by
  intro p hp
  fin_cases hp <;> exact cell_val_agree row _ _ rfl

theorem foldl_fmSet_agree (l : List (String × String)) (f1 f2 : String × String → String)
    (hf : ∀ p ∈ l, f1 p = f2 p) : ∀ (m1 m2 : FieldMap), (∀ k, m1 k = m2 k) →
    ∀ k, (l.foldl (fun m p => fmSet m p.2 (f1 p)) m1) k =
         (l.foldl (fun m p => fmSet m p.2 (f2 p)) m2) k := by
  induction l with
  | nil => intro m1 m2 hm k; exact hm k
  | cons p t ih =>
    intro m1 m2 hm k
    rw [List.foldl_cons, List.foldl_cons]
    refine ih (fun q hq => hf q (List.mem_cons_of_mem p hq)) _ _ ?_ k
    intro q
    unfold fmSet
    rw [hf p (List.mem_cons_self p t)]
    split
    · rfl
    · exact hm q

theorem base_maps_agree (row : Row) : ∀ k, (baseStep row) k = (stBaseStep row) k := by
  intro k
  unfold baseStep stBaseStep
  exact foldl_fmSet_agree COL_MAP (fun p => norm (rowCellCLI row p.1))
    (fun p => stCellVal row p.1) (colmap_cell_agree row) fmEmpty fmEmpty (fun _ => rfl) k

theorem base_fmGet_agree (row : Row) (k : String) :
    fmGet (baseStep row) k = fmGet (stBaseStep row) k := by
  unfold fmGet
  rw [base_maps_agree row k]

theorem splitWsGo_all_ws (w : List Char) (hw : ∀ c ∈ w, pyWs c = true) :
    ∀ run : List Char, splitWsGo w run = if run.isEmpty then [] else [run.reverse] := by
  induction w with
  | nil => intro run; rfl
  | cons c t ih =>
    intro run
    have ht : ∀ x ∈ t, pyWs x = true := fun x hx => hw x (List.mem_cons_of_mem c hx)
    unfold splitWsGo
    rw [if_pos (hw c (List.mem_cons_self c t))]
    split
    case isTrue he => rw [ih ht []]; rfl
    case isFalse he => rw [ih ht []]; rfl

theorem splitWsGo_append_ws (w : List Char) (hw : ∀ c ∈ w, pyWs c = true) :
    ∀ (cs : List Char) (run : List Char), splitWsGo (cs ++ w) run = splitWsGo cs run := by
  intro cs
  induction cs with
  | nil =>
    intro run
    rw [List.nil_append, splitWsGo_all_ws w hw run]
    rfl
  | cons c t ih =>
    intro run
    rw [List.cons_append]
    unfold splitWsGo
    split
    · split
      · exact ih []
      · rw [ih []]
    · exact ih (c :: run)

theorem splitWsGo_dropWhile (l : List Char) :
    splitWsGo (l.dropWhile pyWs) [] = splitWsGo l [] := by
  induction l with
  | nil => rfl
  | cons c t ih =>
    rw [List.dropWhile_cons]
    split
    case isTrue h =>
      have hr : splitWsGo (c :: t) [] = splitWsGo t [] := by
        conv_lhs => unfold splitWsGo
        rw [if_pos h]
        rfl
      rw [ih, hr]
    case isFalse h => rfl

theorem splitWsGo_stripList (l : List Char) :
    splitWsGo (stripList l) [] = splitWsGo l [] := by
  unfold stripList
  set f := l.dropWhile pyWs with hf
  have hsplit : f = ((f.reverse.dropWhile pyWs).reverse) ++ ((f.reverse.takeWhile pyWs).reverse) := by
    conv_lhs => rw [← List.reverse_reverse f,
      ← List.takeWhile_append_dropWhile pyWs f.reverse]
    rw [List.reverse_append]
  have hws : ∀ c ∈ (f.reverse.takeWhile pyWs).reverse, pyWs c = true := by
    intro c hc
    rw [List.mem_reverse] at hc
    exact List.mem_takeWhile_imp hc
  calc splitWsGo (f.reverse.dropWhile pyWs).reverse []
      = splitWsGo ((f.reverse.dropWhile pyWs).reverse ++ (f.reverse.takeWhile pyWs).reverse) [] :=
        (splitWsGo_append_ws _ hws _ []).symm
    _ = splitWsGo f [] := by rw [← hsplit]
    _ = splitWsGo l [] := splitWsGo_dropWhile l

theorem cliNameValues_eq_st (v : String) : cliNameValues v = stNameValues v := by
  unfold cliNameValues stNameValues reSplitWsOfStripped pySplitPlain
  by_cases hv : v = ""
  · subst hv
    rfl
  · rw [if_neg hv]
    by_cases ht : pyStrip v = ""
    · rw [if_pos ht]
      have hnil : stripList v.data = [] := congrArg String.data ht
      have hz : splitWsGo v.data [] = [] := by
        rw [← splitWsGo_stripList, hnil]
        rfl
      rw [hz]
      rfl
    · rw [if_neg ht]
      have hdat : (pyStrip v).data = stripList v.data := rfl
      rw [hdat, splitWsGo_stripList]
      cases hp : (splitWsGo v.data []).map (fun l => String.mk l) with
      | nil => rfl
      | cons p rest =>
        cases rest with
        | nil => rfl
        | cons q rest2 => simp

/-- Claim C3 as amended: the CLI map and the streamlit map agree on the
fields both paths derive with the same logic, namely the name split, the
date-of-birth decomposition and the three run constants; the full maps are
not equal because the upload path omits the other derivations. -/
theorem rowmap_agreement (du : DUOracle) (todayStr : String) (row : Row) (i total : Nat)
    (k : String) (hk : k ∈ commonKeys) :
    fmGet (mapRowCLI du todayStr row i total) k = fmGet (mapRowST du todayStr row i total) k := by
  fin_cases hk
  · simp +decide [mapRowCLI, mapRowST, finalStep, constStep, childrenStep, spouseStep,
      dobStep, checkboxStep, staffStep, nameStep, yearStep, cliNameValues_eq_st,
      base_fmGet_agree]
  · simp +decide [mapRowCLI, mapRowST, finalStep, constStep, childrenStep, spouseStep,
      dobStep, checkboxStep, staffStep, nameStep, yearStep, cliNameValues_eq_st,
      base_fmGet_agree]
  · simp +decide [mapRowCLI, mapRowST, finalStep, constStep, childrenStep, spouseStep,
      dobStep, checkboxStep, staffStep, nameStep, yearStep, cliNameValues_eq_st,
      base_fmGet_agree]
  · simp +decide [mapRowCLI, mapRowST, finalStep, constStep, childrenStep, spouseStep,
      dobStep, checkboxStep, staffStep, nameStep, yearStep, cliNameValues_eq_st,
      base_fmGet_agree]
  · simp +decide [mapRowCLI, mapRowST, finalStep, constStep, childrenStep, spouseStep,
      dobStep, checkboxStep, staffStep, nameStep, yearStep, cliNameValues_eq_st,
      base_fmGet_agree]
  · simp +decide [mapRowCLI, mapRowST, finalStep, constStep, childrenStep, spouseStep,
      dobStep, checkboxStep, staffStep, nameStep, yearStep, cliNameValues_eq_st,
      base_fmGet_agree]
  · simp +decide [mapRowCLI, mapRowST, finalStep, constStep, childrenStep, spouseStep,
      dobStep, checkboxStep, staffStep, nameStep, yearStep, cliNameValues_eq_st,
      base_fmGet_agree]
  · simp +decide [mapRowCLI, mapRowST, finalStep, constStep, childrenStep, spouseStep,
      dobStep, checkboxStep, staffStep, nameStep, yearStep, cliNameValues_eq_st,
      base_fmGet_agree]

/-- Claim C3 counterexample: on a blank row the CLI map synthesizes a staff
identifier while the streamlit map leaves it empty, so the two per-row maps
are not equal. -/
theorem cli_st_maps_differ :
    mapRowCLI duNone "17/10/2026" ([] : Row) 1 2 ≠ mapRowST duNone "17/10/2026" ([] : Row) 1 2 :=
  fun h => absurd (congrFun h "staff_id") (by decide)

/-- Witness for the amended claim C3 at the surname key of a blank row. -/
theorem rowmap_agreement_witness :
    fmGet (mapRowCLI duNone "17/10/2026" ([] : Row) 1 2) "surname" =
    fmGet (mapRowST duNone "17/10/2026" ([] : Row) 1 2) "surname" :=
  rowmap_agreement duNone "17/10/2026" [] 1 2 "surname" (by decide)
